import Mathlib

/-!
Shallow embedding of the stock-analysis tool `src/analyze_stocks.py`.

The file models, directly from the source:
* the Python-style string primitives the script relies on
  (`strip`, substring test `in`, `startswith`, the `replace`-based cleanup);
* `analyze_kline`'s interval percent-change computation (lines 146-157);
* `read_tdx_export`'s `.xls`/`.xlsx` branch (lines 46-84): the first-line
  metadata regular expression and the tab-text-then-Excel fallback order;
* `read_stock_list` (lines 194-221): the `="..."` wrapper removal on the
  code column and the `#`-comment row filter;
* `analyze_stock_list` (lines 224-368): the group reconstruction loop, the
  index split, the duplicate statistics, the master-set dedup, the
  per-group listings and the top-5/bottom-5 slices;
* `is_stock_list` (lines 371-378).

Numeric cells that the script passes through `pd.to_numeric(errors="coerce")`
are modelled as `Option ℚ` (`none` = coercion failure / NaN).  A pandas
DataFrame that carries watchlist rows is modelled as `List SRow`,
preserving row order; raw tabular data is `Table`.
-/

namespace TdxStock

/-! ### Character classes and Python-style string primitives -/

/-- Python whitespace class (the characters `str.strip` and `\s` remove
in the ASCII range): space, tab, newline, carriage return, vertical tab,
form feed. -/
def isWsC (c : Char) : Bool :=
  c == ' ' || c == '\t' || c == '\n' || c == '\r' || c == '\x0b' || c == '\x0c'

/-- Python `str.strip()`: drop leading and trailing whitespace. -/
def pyStrip (s : String) : String :=
  ⟨((s.data.dropWhile isWsC).reverse.dropWhile isWsC).reverse⟩

/-- `startsWithL n h` : the char list `h` starts with `n`
(Python `str.startswith`). -/
def startsWithL : List Char → List Char → Bool
  | [], _ => true
  | _ :: _, [] => false
  | n :: ns, h :: hs => n == h && startsWithL ns hs

/-- `containsSub n h` : `n` occurs as a contiguous substring of `h`
(Python `n in h`). -/
def containsSub (needle : List Char) : List Char → Bool
  | [] => needle.isEmpty
  | c :: t => startsWithL needle (c :: t) || containsSub needle t

/-- Python `needle in hay` on strings. -/
def strContains (needle hay : String) : Bool := containsSub needle.data hay.data

/-- Python `s.startswith(pre)`. -/
def strStartsWith (pre s : String) : Bool := startsWithL pre.data s.data

/-! ### `analyze_kline`: interval percent change (source lines 146-157)

The close column after `pd.to_numeric` is modelled as `List ℚ`.  The
script computes and prints `(close[-1] - close[0]) / close[0] * 100`
exactly when `len(close) > 1`; there is no guard on `close[0] == 0`
(float division by zero would yield a non-finite value there — only the
emission decision is modelled, the rational value is the exact
arithmetic when the first close is nonzero). -/

/-- Last element of a nonempty rational list, written with an
accumulator: `lastQ d l` is the last element of `d :: l`
(`close.iloc[-1]`). -/
def lastQ : ℚ → List ℚ → ℚ
  | d, [] => d
  | _, x :: t => lastQ x t

/-- Interval change of `analyze_kline`: `some` of the computed value when
the series has more than one entry, `none` (nothing printed) otherwise. -/
def total_change : List ℚ → Option ℚ
  | [] => none
  | [_] => none
  | c :: c2 :: rest => some ((lastQ c2 rest - c) / c * 100)

/-! ### First-line metadata pattern (source line 55)

`re.search(r'([一-龥]+)\s*[\(（]([0-9]+)[\)）]', first_line)`.
The regex is deterministic: each quantified class is disjoint from the
character that must follow it, so greedy maximal munch with no
backtracking is the exact match semantics, and `re.search` is the first
position at which the anchored match succeeds. -/

/-- CJK unified ideograph range used by the regex character class. -/
def isCJK (c : Char) : Bool := 0x4e00 ≤ c.toNat && c.toNat ≤ 0x9fa5

/-- ASCII or fullwidth opening parenthesis, the regex class `[\(（]`. -/
def isOpenP (c : Char) : Bool := c == '(' || c == '（'

/-- ASCII or fullwidth closing parenthesis, the regex class `[\)）]`. -/
def isCloseP (c : Char) : Bool := c == ')' || c == '）'

/-- The regex class `[0-9]`. -/
def isDig (c : Char) : Bool := c.isDigit

/-- Anchored match of the metadata regex at the start of `cs`: a nonempty
CJK run, optional whitespace, an opening parenthesis, a nonempty digit
run, a closing parenthesis.  Returns the two capture groups. -/
def extractAt (cs : List Char) : Option (String × String) :=
  if (cs.takeWhile isCJK).isEmpty then none
  else
    match (cs.dropWhile isCJK).dropWhile isWsC with
    | [] => none
    | o :: rest =>
      if isOpenP o then
        if (rest.takeWhile isDig).isEmpty then none
        else
          match rest.dropWhile isDig with
          | [] => none
          | c :: _ =>
            if isCloseP c then some (⟨cs.takeWhile isCJK⟩, ⟨rest.takeWhile isDig⟩)
            else none
      else none

/-- `re.search`: try the anchored match at each position, left to right. -/
def metaSearch : List Char → Option (String × String)
  | [] => none
  | c :: t =>
    match extractAt (c :: t) with
    | some r => some r
    | none => metaSearch t

/-- `stock_info` extraction from a (stripped) first line:
`{'name': m.group(1), 'code': m.group(2)}` when the regex matches. -/
def stock_info_of (line : String) : Option (String × String) := metaSearch line.data

/-- The specification's wording of the metadata pattern: the line contains
`"<name><whitespace>(<digits>)"` with the parentheses either ASCII or
fullwidth — a decomposition into a prefix, a nonempty CJK name run,
a (possibly empty) whitespace run, an opening parenthesis, a nonempty
digit run, a closing parenthesis and a suffix. -/
def SpecMeta (cs : List Char) : Prop :=
  ∃ (p nm w d s : List Char) (o c : Char),
    cs = p ++ nm ++ w ++ o :: (d ++ c :: s) ∧
    nm ≠ [] ∧ (∀ x ∈ nm, isCJK x = true) ∧
    (∀ x ∈ w, isWsC x = true) ∧
    isOpenP o = true ∧
    d ≠ [] ∧ (∀ x ∈ d, isDig x = true) ∧
    isCloseP c = true

/-! ### `read_tdx_export`, `.xls`/`.xlsx` branch (source lines 46-84) -/

/-- Header-row scan of the `.xls`-as-text path: index of the first line
containing `"时间"`. -/
def find_header_aux : Nat → List String → Option Nat
  | _, [] => none
  | i, l :: t => if strContains "时间" l then some i else find_header_aux (i + 1) t

/-- `header_idx` starts at `0` and is overwritten by the first line
containing `"时间"`, if any (source lines 60-64). -/
def find_header_idx (lines : List String) : Nat := (find_header_aux 0 lines).getD 0

/-- Outcome of the `.xls`/`.xlsx` read: the returned frame (`none` models
`return None, None`), the returned `stock_info`, and whether the
spreadsheet-binary path (`pd.read_excel`) was attempted. -/
structure XlsReadTrace (α : Type) where
  df : Option α
  info : Option (String × String)
  excelTried : Bool
deriving DecidableEq

/-- The Excel fallback (source lines 79-84): on success it returns the
frame together with whatever `stock_info` was already extracted; if it
also fails, control reaches line 91 and both results are dropped
(`return None, None`). -/
def excelFallback {α : Type} (info : Option (String × String))
    (excelParse : Option α) : XlsReadTrace α :=
  match excelParse with
  | some t => { df := some t, info := info, excelTried := true }
  | none => { df := none, info := none, excelTried := true }

/-- The `.xls`/`.xlsx` branch of `read_tdx_export`.  `lines` is the
GBK-decoded line list (`none` = the decode itself raised, `some []` =
`lines[0]` raised `IndexError`); `tabParse` abstracts
`pd.read_csv(sep='\t', skiprows=·)` by its outcome, `excelParse`
abstracts `pd.read_excel`.  Any exception inside the first `try` block
falls through to the Excel attempt. -/
def read_xls {α : Type} (lines : Option (List String))
    (tabParse : Nat → Option α) (excelParse : Option α) : XlsReadTrace α :=
  match lines with
  | none => excelFallback none excelParse
  | some [] => excelFallback none excelParse
  | some (l0 :: rest) =>
    let info := stock_info_of (pyStrip l0)
    match tabParse (find_header_idx (l0 :: rest)) with
    | some t => { df := some t, info := info, excelTried := false }
    | none => excelFallback info excelParse

/-! ### `read_stock_list` (source lines 194-221) -/

/-- A raw tabular frame: header labels and rows of string cells. -/
structure Table where
  headers : List String
  rows : List (List String)
deriving DecidableEq

/-- Python `str.replace('="', '')`: remove every (left-to-right,
non-overlapping) occurrence of the two-character substring `="`. -/
def stripEqQuote : List Char → List Char
  | [] => []
  | '=' :: '"' :: t => stripEqQuote t
  | c :: t => c :: stripEqQuote t

/-- Python `str.replace('"', '')`: remove every double quote. -/
def stripQuote (l : List Char) : List Char := l.filter (fun c => c != '"')

/-- The code-column cleanup of `read_stock_list` (line 212): first drop
`="`, then drop `"`. -/
def cleanCode (s : String) : String := ⟨stripQuote (stripEqQuote s.data)⟩

/-- Apply `f` to the cell at position `i` of a row, if present. -/
def modifyCell (f : String → String) : Nat → List String → List String
  | _, [] => []
  | 0, c :: t => f c :: t
  | Nat.succ i, c :: t => c :: modifyCell f i t

/-- Position of the first occurrence of a header label (the column that
`df['代码']` addresses). -/
def firstIdx (h : String) : List String → Nat
  | [] => 0
  | x :: t => if x == h then 0 else firstIdx h t + 1

/-- The comment-row filter of line 215: keep a row unless its first cell
starts with `#`. -/
def keepRow (r : List String) : Bool := !(strStartsWith "#" (r.headD ""))

/-- `read_stock_list` after the raw tab-separated read: clean the `代码`
column if present, then drop rows whose first cell starts with `#`. -/
def read_stock_list (t : Table) : Table :=
  let rows1 :=
    if "代码" ∈ t.headers then
      t.rows.map (modifyCell cleanCode (firstIdx "代码" t.headers))
    else t.rows
  { headers := t.headers, rows := rows1.filter keepRow }

/-! ### `analyze_stock_list` (source lines 224-368) -/

/-- A watchlist row: the `代码` and `名称` cells as raw strings and the
`涨幅%` cell after numeric coercion (`none` = missing / not numeric). -/
structure SRow where
  code : String
  name : String
  chg : Option ℚ
deriving DecidableEq

/-- Grouping-loop state: the `groups` dict (insertion-ordered, as a
Python dict) and `current_group`. -/
structure GState where
  groups : List (String × List SRow)
  current : String
deriving DecidableEq

/-- Ordered-dict lookup. -/
def lookupGroup : List (String × List SRow) → String → Option (List SRow)
  | [], _ => none
  | (k, v) :: t, g => if k == g then some v else lookupGroup t g

/-- Ordered-dict update of an existing key (keeps its position). -/
def setGroup : List (String × List SRow) → String → List SRow → List (String × List SRow)
  | [], g, v => [(g, v)]
  | (k, w) :: t, g, v => if k == g then (k, v) :: t else (k, w) :: setGroup t g v

/-- `if current_group not in groups: groups[current_group] = []` followed
by `groups[current_group].append(row)` (source lines 250-252). -/
def addMember (gs : List (String × List SRow)) (g : String) (r : SRow) :
    List (String × List SRow) :=
  match lookupGroup gs g with
  | some v => setGroup gs g (v ++ [r])
  | none => gs ++ [(g, [r])]

/-- `if current_group not in groups: groups[current_group] = []`
(source lines 246-247). -/
def ensureGroup (gs : List (String × List SRow)) (g : String) :
    List (String × List SRow) :=
  match lookupGroup gs g with
  | some _ => gs
  | none => gs ++ [(g, [])]

/-- Data-row test of line 241: the (stripped) code is nonempty and its
first character is a digit.  (Python `str.isdigit` also accepts some
non-ASCII digits; instrument codes are ASCII.) -/
def isDataCode (s : String) : Bool :=
  match s.data with
  | [] => false
  | c :: _ => c.isDigit

/-- Candidate group label of a marker row:
`group_name = code if code else name` (line 243), both stripped. -/
def markerLabel (r : SRow) : String :=
  let code := pyStrip r.code
  if code.data.isEmpty then pyStrip r.name else code

/-- One iteration of the grouping loop (source lines 236-252). -/
def stepRow (st : GState) (r : SRow) : GState :=
  if !(isDataCode (pyStrip r.code)) then
    let gname := markerLabel r
    if !gname.data.isEmpty && !(strContains "重复" gname) &&
        !(strContains "数据来源" gname) then
      { groups := ensureGroup st.groups gname, current := gname }
    else st
  else
    { st with groups := addMember st.groups st.current r }

/-- The whole grouping loop, started at `current_group = "未分类"`. -/
def runGroups (rows : List SRow) : GState :=
  rows.foldl stepRow { groups := [], current := "未分类" }

/-- `group_dfs`: groups with a nonempty member list, in creation order
(source lines 255-258). -/
def group_dfs (rows : List SRow) : List (String × List SRow) :=
  (runGroups rows).groups.filter (fun p => !p.2.isEmpty)

/-- Market-index predicate used throughout:
`str(code).startswith('99')` on the raw code cell. -/
def starts99 (r : SRow) : Bool := strStartsWith "99" r.code

/-- `all_stocks = pd.concat(group_dfs.values()) if group_dfs else df`
(source line 261). -/
def all_stocks (rows : List SRow) : List SRow :=
  let gd := group_dfs rows
  if gd.isEmpty then rows else (gd.map Prod.snd).flatten

/-- `index_df`: rows of `all_stocks` whose code starts with `99`
(source line 262). -/
def index_df (rows : List SRow) : List SRow := (all_stocks rows).filter starts99

/-- `all_codes`: for each group in creation order, the `(code, group)`
pairs of its non-index members (source lines 265-268). -/
def all_codes (rows : List SRow) : List (String × String) :=
  ((group_dfs rows).map
    (fun p => (p.2.filter (fun r => !(starts99 r))).map (fun r => (r.code, p.1)))).flatten

/-- `Counter` count of one code among the `all_codes` pairs. -/
def codeCount (ac : List (String × String)) (c : String) : Nat :=
  (ac.filter (fun p => p.1 == c)).length

/-- First-occurrence deduplication of a string list (the key order of a
`Counter` built from the list). -/
def dedupFirstAux (seen : List String) : List String → List String
  | [] => []
  | c :: t => if c ∈ seen then dedupFirstAux seen t else c :: dedupFirstAux (c :: seen) t

/-- Keys of the `duplicates` dict: codes whose `Counter` count exceeds 1,
in first-occurrence order (source line 272). -/
def dupKeys (rows : List SRow) : List String :=
  let ac := all_codes rows
  (dedupFirstAux [] (ac.map Prod.fst)).filter (fun c => 1 < codeCount ac c)

/-- The label list accumulated for a code by the loop of lines 273-275:
one group label per occurrence, in `all_codes` order. -/
def dupLabels (rows : List SRow) (c : String) : List String :=
  ((all_codes rows).filter (fun p => p.1 == c)).map Prod.snd

/-- The `duplicates` dict (source lines 272-275). -/
def duplicates (rows : List SRow) : List (String × List String) :=
  (dupKeys rows).map (fun c => (c, dupLabels rows c))

/-- Ordered-dict lookup in the `duplicates` dict. -/
def lookupStr : List (String × List String) → String → Option (List String)
  | [], _ => none
  | (k, v) :: t, c => if k == c then some v else lookupStr t c

/-- The set of distinct group labels a code appears in, in first-seen
order (the quantity the specification calls the code's label set). -/
def distinctLabels (rows : List SRow) (c : String) : List String :=
  dedupFirstAux [] (dupLabels rows c)

/-- `drop_duplicates(subset=['代码'])` with the default `keep='first'`:
keep a row iff its code was not seen before. -/
def dedupByCode (seen : List String) : List SRow → List SRow
  | [] => []
  | r :: t =>
    if r.code ∈ seen then dedupByCode seen t
    else r :: dedupByCode (r.code :: seen) t

/-- The non-index rows of `all_stocks`, in order (source line 278). -/
def stockRows (rows : List SRow) : List SRow :=
  (all_stocks rows).filter (fun r => !(starts99 r))

/-- `stock_df`: the deduplicated master set (source lines 278-279). -/
def stock_df (rows : List SRow) : List SRow := dedupByCode [] (stockRows rows)

/-- The "涨幅前5" slice: `stock_df.head(5)` (source line 361). -/
def top5 (rows : List SRow) : List SRow := (stock_df rows).take 5

/-- The "跌幅前5" slice: `stock_df.tail(5).iloc[::-1]` (source line 365). -/
def bottom5 (rows : List SRow) : List SRow :=
  ((stock_df rows).drop ((stock_df rows).length - 5)).reverse

/-- Numeric view of the `涨幅%` cell with missing as `0`, used only to
state rankings. -/
def chgV (r : SRow) : ℚ := r.chg.getD 0

/-- Descending comparison on coerced `涨幅%`, missing values last
(pandas `sort_values(ascending=False)`, `na_position='last'`). -/
def chgKeyGE (a b : SRow) : Bool :=
  match a.chg, b.chg with
  | some x, some y => decide (y ≤ x)
  | some _, none => true
  | none, some _ => false
  | none, none => true

/-- Insertion step of the per-group sort. -/
def insertDesc (r : SRow) : List SRow → List SRow
  | [] => [r]
  | x :: t => if chgKeyGE r x then r :: x :: t else x :: insertDesc r t

/-- Sort by `涨幅%` descending.  (pandas' default sort kind leaves the
relative order of ties unspecified; membership is unaffected.) -/
def sortChgDesc (l : List SRow) : List SRow := l.foldr insertDesc []

/-- The per-group ranking listings (source lines 316-338): for each group
in creation order, its non-index members sorted by `涨幅%` descending.
(The print loop skips groups whose filtered list is empty; the entry is
kept here with an empty list.) -/
def groupListings (rows : List SRow) : List (String × List SRow) :=
  (group_dfs rows).map
    (fun p => (p.1, sortChgDesc (p.2.filter (fun r => !(starts99 r)))))

/-! ### `is_stock_list` (source lines 371-378) -/

/-- Watchlist classifier: the GBK-decoded first line (`none` = reading or
decoding raised) must contain both `"代码"` and `"名称"`; any exception
yields `False`. -/
def is_stock_list (firstLine : Option String) : Bool :=
  match firstLine with
  | none => false
  | some l => strContains "代码" l && strContains "名称" l

/-! ### Concrete inputs used by the claim theorems -/

/-- A watchlist in which code `000001` occurs twice inside one single
group. -/
def exC1 : List SRow :=
  [⟨"GroupA", "", none⟩, ⟨"000001", "AAA", some 5⟩, ⟨"000001", "AAA", some 5⟩]

/-- The record with the highest `涨幅%` of `exC2`. -/
def exC2top : SRow := ⟨"000006", "FFF", some 100⟩

/-- A watchlist of six stocks in one group whose best performer comes
last in master-set order. -/
def exC2 : List SRow :=
  [⟨"G", "", none⟩,
   ⟨"000001", "AAA", some 1⟩, ⟨"000002", "BBB", some 2⟩,
   ⟨"000003", "CCC", some 3⟩, ⟨"000004", "DDD", some 4⟩,
   ⟨"000005", "EEE", some 5⟩, exC2top]

/-- The synthetic grouping input of specification §8. -/
def ex8 : List SRow :=
  [⟨"GroupA", "", none⟩,
   ⟨"000001", "AAA", some 5⟩, ⟨"000002", "BBB", some (-3)⟩,
   ⟨"GroupB", "", none⟩,
   ⟨"000001", "AAA", some 7⟩]

/-- The index record used to exercise index exclusion. -/
def exC5idx : SRow := ⟨"990001", "IDX", some 1⟩

/-- A watchlist holding one market index and one ordinary stock. -/
def exC5 : List SRow :=
  [⟨"G", "", none⟩, exC5idx, ⟨"000001", "AAA", some 2⟩]

/-- A raw watchlist table with an Excel-quoted code cell and a comment
row. -/
def exTable : Table :=
  { headers := ["代码", "名称"],
    rows := [["=\"000001\"", "AAA"], ["#导出说明", "x"], ["000002", "BBB"]] }

/-! ### String-primitive lemmas -/

theorem startsWithL_iff (n h : List Char) :
    startsWithL n h = true ↔ ∃ s, h = n ++ s := by
  induction n generalizing h with
  | nil => simp [startsWithL]
  | cons a ns ih =>
    cases h with
    | nil => simp [startsWithL]
    | cons b hs =>
      simp only [startsWithL, Bool.and_eq_true, beq_iff_eq, ih, List.cons_append]
      constructor
      · rintro ⟨rfl, s, rfl⟩; exact ⟨s, rfl⟩
      · rintro ⟨s, h⟩
        injection h with h1 h2
        exact ⟨h1.symm, s, h2⟩

theorem containsSub_iff (n h : List Char) :
    containsSub n h = true ↔ ∃ p s, h = p ++ n ++ s := by
  induction h with
  | nil =>
    cases n <;> simp [containsSub, List.isEmpty]
  | cons c t ih =>
    simp only [containsSub, Bool.or_eq_true, startsWithL_iff, ih]
    constructor
    · rintro (⟨s, hs⟩ | ⟨p, s, rfl⟩)
      · exact ⟨[], s, by simpa using hs⟩
      · exact ⟨c :: p, s, rfl⟩
    · rintro ⟨p, s, h⟩
      cases p with
      | nil => exact Or.inl ⟨s, by simpa using h⟩
      | cons c' p' =>
        injection h with h1 h2
        exact Or.inr ⟨p', s, h2⟩

/-! ### C9 : watchlist classification -/

/-- C9: a document is classified as a watchlist iff its GBK-decoded first
line contains both the token `代码` and the token `名称`; when reading or
decoding the first line raises (`firstLine = none`) the classifier
returns `false` instead of failing. -/
theorem c9_stock_list_detect (firstLine : Option String) :
    is_stock_list firstLine = true ↔
      ∃ l, firstLine = some l ∧ (∃ p s, l.data = p ++ "代码".data ++ s) ∧
        (∃ p s, l.data = p ++ "名称".data ++ s) := by
  cases firstLine with
  | none => simp [is_stock_list]
  | some l =>
    simp only [is_stock_list, strContains, Bool.and_eq_true, containsSub_iff,
      Option.some.injEq]
    constructor
    · rintro ⟨h1, h2⟩; exact ⟨l, rfl, h1, h2⟩
    · rintro ⟨l', heq, h1, h2⟩
      cases heq
      exact ⟨h1, h2⟩

/-! ### C3 : interval percent change -/

/-- C3 counterexample: the claim says the percent change is omitted
whenever the first close is zero; on the series `[0, 10]` the code still
computes and emits a value (the float division yields a non-finite
number), so the emission test is positive rather than the claimed
omission. -/
theorem c3_zero_first_emitted : (total_change [0, 10]).isSome = true := by
  simp [total_change]

/-- C3 (amended): the percent change is emitted iff the series has at
least two records, and whenever the first close is nonzero the emitted
value is `(last - first) / first * 100`; a zero first close does not
suppress emission. -/
theorem c3_percent_change (close : List ℚ) :
    ((total_change close).isSome = true ↔ 2 ≤ close.length) ∧
    (∀ f rest v, close = f :: rest → f ≠ 0 → total_change close = some v →
      v = (lastQ f rest - f) / f * 100) := by
  constructor
  · match close with
    | [] => simp [total_change]
    | [x] => simp [total_change]
    | x :: y :: t => simp [total_change]
  · rintro f rest v rfl hf h
    cases rest with
    | nil => simp [total_change] at h
    | cons c2 t =>
      simp only [total_change, Option.some.injEq] at h
      simp [lastQ, ← h]

/-- Witness for `c3_percent_change` at the series `[4, 6]`. -/
theorem c3_percent_change_witness :
    2 ≤ ([4, 6] : List ℚ).length ∧
    ((lastQ 4 [6] : ℚ) - 4) / 4 * 100 = (lastQ 4 [6] - 4) / 4 * 100 :=
  ⟨(c3_percent_change [4, 6]).1.mp rfl,
   (c3_percent_change [4, 6]).2 4 [6] _ rfl (by decide) rfl⟩

/-! ### C2 : top-5 / bottom-5 slices -/

/-- C2 (code bug): the claim — and the script's own report label
`涨幅前5` — say the top-5 slice holds the five records with the highest
`涨幅%`, but `stock_df.head(5)` slices the master set unsorted.  On
`exC2` the record with the strictly largest `涨幅%` is in the master set
yet absent from the top-5 slice. -/
theorem c2_top5_unranked :
    ((stock_df exC2).all (fun r => decide (chgV r ≤ chgV exC2top))) = true ∧
    exC2top ∈ stock_df exC2 ∧
    (top5 exC2).all (fun r => r.code != exC2top.code) = true := by decide

/-! ### C6 : `.xls` read-path fallback order -/

/-- C6: on the `.xls`/`.xlsx` path the tab-delimited text parse is
attempted first; when it succeeds the spreadsheet-binary parse is never
attempted and its outcome is irrelevant, and the spreadsheet-binary
parse runs exactly when the tab-text path raised. -/
theorem c6_xls_fallback {α : Type} (lines : Option (List String))
    (tabParse : Nat → Option α) (excelParse : Option α) :
    (∀ l0 rest t, lines = some (l0 :: rest) →
        tabParse (find_header_idx (l0 :: rest)) = some t →
        read_xls lines tabParse excelParse =
          { df := some t, info := stock_info_of (pyStrip l0), excelTried := false }) ∧
    ((read_xls lines tabParse excelParse).excelTried = true ↔
        ∀ l0 rest, lines = some (l0 :: rest) →
          tabParse (find_header_idx (l0 :: rest)) = none) := by
  constructor
  · rintro l0 rest t rfl htab
    simp [read_xls, htab]
  · match lines with
    | none => cases excelParse <;> simp [read_xls, excelFallback]
    | some [] => cases excelParse <;> simp [read_xls, excelFallback]
    | some (l0 :: rest) =>
      cases htab : tabParse (find_header_idx (l0 :: rest)) with
      | some t =>
        simp only [read_xls, htab]
        constructor
        · intro h; cases h
        · intro h
          have := h l0 rest rfl
          rw [htab] at this
          cases this
      | none =>
        cases excelParse with
        | none =>
          simp only [read_xls, htab, excelFallback, true_iff]
          rintro l0' rest' heq
          injection heq with heq'
          cases heq'
          exact htab
        | some t =>
          simp only [read_xls, htab, excelFallback, true_iff]
          rintro l0' rest' heq
          injection heq with heq'
          cases heq'
          exact htab

/-- Witness for `c6_xls_fallback`: a one-line document whose tab parse
succeeds is returned without trying the Excel path. -/
theorem c6_xls_fallback_witness :
    read_xls (some ["x"]) (fun _ => some (7 : Nat)) none =
      { df := some 7, info := stock_info_of (pyStrip "x"), excelTried := false } :=
  (c6_xls_fallback (some ["x"]) (fun _ => some 7) none).1 "x" [] 7 rfl rfl

/-! ### C1 : the duplicates map -/

theorem mem_dedupFirstAux (seen l : List String) (c : String) :
    c ∈ dedupFirstAux seen l ↔ c ∈ l ∧ c ∉ seen := by
  induction l generalizing seen with
  | nil => simp [dedupFirstAux]
  | cons a t ih =>
    rw [dedupFirstAux]
    by_cases ha : a ∈ seen
    · rw [if_pos ha, ih]
      simp only [List.mem_cons]
      constructor
      · rintro ⟨hm, hs⟩; exact ⟨Or.inr hm, hs⟩
      · rintro ⟨rfl | hm, hs⟩
        · exact absurd ha hs
        · exact ⟨hm, hs⟩
    · rw [if_neg ha]
      by_cases hca : c = a
      · subst hca
        simp [List.mem_cons, ih, ha]
      · simp only [List.mem_cons, ih, List.mem_cons]
        constructor
        · rintro (h | ⟨hm, hs⟩)
          · exact absurd h hca
          · exact ⟨Or.inr hm, fun hc => hs (Or.inr hc)⟩
        · rintro ⟨h | hm, hs⟩
          · exact absurd h hca
          · exact Or.inr ⟨hm, fun hc => hc.elim hca hs⟩

theorem mem_map_fst_of_codeCount_pos (ac : List (String × String)) (c : String)
    (h : 0 < codeCount ac c) : c ∈ ac.map Prod.fst := by
  unfold codeCount at h
  rw [List.length_pos] at h
  obtain ⟨p, hp⟩ := List.exists_mem_of_ne_nil _ h
  rw [List.mem_filter] at hp
  refine List.mem_map.mpr ⟨p, hp.1, ?_⟩
  simpa using hp.2

theorem lookupStr_map_key (keys : List String) (f : String → List String) (c : String) :
    lookupStr (keys.map (fun k => (k, f k))) c =
      if c ∈ keys then some (f c) else none := by
  induction keys with
  | nil => simp [lookupStr]
  | cons k t ih =>
    simp only [List.map_cons, lookupStr]
    by_cases hk : k = c
    · subst hk
      simp
    · have hb : (k == c) = false := by simpa using hk
      rw [hb]
      simp only [Bool.false_eq_true, if_false, ih]
      have hiff : c ∈ k :: t ↔ c ∈ t := by
        rw [List.mem_cons]
        exact or_iff_right (fun h => hk h.symm)
      rw [if_congr hiff rfl rfl]

/-- C1 counterexample: in `exC1` the code `000001` occurs twice inside
the single group `GroupA`, so its set of distinct group labels has
cardinality 1, yet `duplicates` reports it (with the label listed twice)
— the claimed "in `duplicates` iff the set of distinct group labels has
cardinality > 1" is false on the code. -/
theorem c1_duplicates_counterexample :
    "000001" ∈ dupKeys exC1 ∧ (distinctLabels exC1 "000001").length = 1 ∧
      lookupStr (duplicates exC1) "000001" = some ["GroupA", "GroupA"] := by
  decide

/-- C1 (amended): a non-index code appears in `duplicates` iff its total
number of occurrences across groups, counted with multiplicity, exceeds
one; its associated label sequence lists the group label of each
occurrence in group-creation order (then member order inside a group),
so a label may repeat. -/
theorem c1_duplicates (rows : List SRow) (c : String) :
    (c ∈ dupKeys rows ↔ 1 < codeCount (all_codes rows) c) ∧
    lookupStr (duplicates rows) c =
      if c ∈ dupKeys rows then some (dupLabels rows c) else none := by
  constructor
  · unfold dupKeys
    rw [List.mem_filter]
    constructor
    · rintro ⟨_, hcnt⟩
      simpa using hcnt
    · intro h
      refine ⟨?_, by simpa using h⟩
      rw [mem_dedupFirstAux]
      exact ⟨mem_map_fst_of_codeCount_pos _ _ (lt_trans one_pos h),
        List.not_mem_nil c⟩
  · unfold duplicates
    exact lookupStr_map_key (dupKeys rows) (dupLabels rows) c

/-! ### C4 : master-set deduplication -/

theorem mem_of_mem_dedupByCode (seen : List String) (l : List SRow) (r : SRow)
    (h : r ∈ dedupByCode seen l) : r ∈ l ∧ r.code ∉ seen := by
  induction l generalizing seen with
  | nil => simp [dedupByCode] at h
  | cons x t ih =>
    rw [dedupByCode] at h
    by_cases hx : x.code ∈ seen
    · rw [if_pos hx] at h
      obtain ⟨hm, hs⟩ := ih seen h
      exact ⟨List.mem_cons.mpr (Or.inr hm), hs⟩
    · rw [if_neg hx] at h
      rcases List.mem_cons.mp h with rfl | h
      · exact ⟨List.mem_cons_self _ _, hx⟩
      · obtain ⟨hm, hs⟩ := ih _ h
        exact ⟨List.mem_cons.mpr (Or.inr hm),
          fun hc => hs (List.mem_cons.mpr (Or.inr hc))⟩

theorem dedupByCode_first (seen : List String) (l : List SRow) (r : SRow)
    (h : r ∈ dedupByCode seen l) :
    (l.filter (fun y => y.code == r.code)).head? = some r := by
  induction l generalizing seen with
  | nil => simp [dedupByCode] at h
  | cons x t ih =>
    rw [dedupByCode] at h
    by_cases hx : x.code ∈ seen
    · rw [if_pos hx] at h
      have hns := (mem_of_mem_dedupByCode _ _ _ h).2
      have hne : (x.code == r.code) = false := by
        simp only [beq_eq_false_iff_ne, ne_eq]
        intro he
        rw [he] at hx
        exact hns hx
      simp only [List.filter_cons, hne, Bool.false_eq_true, if_false]
      exact ih seen h
    · rw [if_neg hx] at h
      rcases List.mem_cons.mp h with rfl | h
      · simp only [List.filter_cons, beq_self_eq_true, if_true]
        rfl
      · have hns := (mem_of_mem_dedupByCode _ _ _ h).2
        have hne : (x.code == r.code) = false := by
          simp only [beq_eq_false_iff_ne, ne_eq]
          intro he
          exact hns (by rw [← he]; exact List.mem_cons_self _ _)
        simp only [List.filter_cons, hne, Bool.false_eq_true, if_false]
        exact ih _ h

theorem dedupByCode_filter_len (seen : List String) (l : List SRow) (c : String) :
    ((dedupByCode seen l).filter (fun y => y.code == c)).length ≤ 1 := by
  induction l generalizing seen with
  | nil => simp [dedupByCode]
  | cons x t ih =>
    rw [dedupByCode]
    by_cases hx : x.code ∈ seen
    · rw [if_pos hx]
      exact ih seen
    · rw [if_neg hx]
      by_cases hc : (x.code == c) = true
      · have hnil : ((dedupByCode (x.code :: seen) t).filter
            (fun y => y.code == c)) = [] := by
          rw [List.filter_eq_nil_iff]
          intro y hy
          have hns := (mem_of_mem_dedupByCode _ _ _ hy).2
          simp only [beq_iff_eq]
          intro he
          have hxc : x.code = c := by simpa using hc
          exact hns (by rw [he, ← hxc]; exact List.mem_cons_self _ _)
        simp only [List.filter_cons, hc, if_true, hnil]
        simp
      · have hc' : (x.code == c) = false := by
          cases hb : (x.code == c)
          · rfl
          · exact absurd hb hc
        simp only [List.filter_cons, hc', Bool.false_eq_true, if_false]
        exact ih _

/-- C4: the master set retains at most one record per instrument code;
every retained record is the first occurrence of its code in the
index-excluded, group-encounter-ordered row stream; on the §8 input the
record retained for code `000001` is the GroupA occurrence with
`涨幅% = 5`. -/
theorem c4_master_dedup (rows : List SRow) :
    (∀ c, ((stock_df rows).filter (fun y => y.code == c)).length ≤ 1) ∧
    (∀ r, r ∈ stock_df rows →
      ((stockRows rows).filter (fun y => y.code == r.code)).head? = some r) ∧
    (stock_df ex8).filter (fun y => y.code == "000001") =
      [⟨"000001", "AAA", some 5⟩] :=
  ⟨fun c => dedupByCode_filter_len [] _ c,
   fun r hr => dedupByCode_first [] _ r hr,
   by decide⟩

/-- Witness for `c4_master_dedup`: on the §8 input the retained `000001`
record is the first (GroupA) occurrence. -/
theorem c4_master_dedup_witness :
    ((stockRows ex8).filter (fun y => y.code == "000001")).head? =
      some ⟨"000001", "AAA", some 5⟩ :=
  (c4_master_dedup ex8).2.1 ⟨"000001", "AAA", some 5⟩ (by decide)

/-! ### C5 : market-index exclusion -/

theorem mem_insertDesc (r a : SRow) (l : List SRow) :
    a ∈ insertDesc r l ↔ a = r ∨ a ∈ l := by
  induction l with
  | nil => simp [insertDesc]
  | cons x t ih =>
    rw [insertDesc]
    by_cases h : chgKeyGE r x
    · rw [if_pos h]
      simp [List.mem_cons]
    · rw [if_neg h]
      simp only [List.mem_cons, ih]
      tauto

theorem mem_sortChgDesc (a : SRow) (l : List SRow) :
    a ∈ sortChgDesc l ↔ a ∈ l := by
  induction l with
  | nil => simp [sortChgDesc]
  | cons x t ih =>
    show a ∈ insertDesc x (sortChgDesc t) ↔ _
    rw [mem_insertDesc, ih]
    simp [List.mem_cons]

theorem code99_not_in_all_codes (rows : List SRow) (co g : String)
    (h : (co, g) ∈ all_codes rows) : strStartsWith "99" co = false := by
  unfold all_codes at h
  rw [List.mem_flatten] at h
  obtain ⟨inner, hinner, hmem⟩ := h
  rw [List.mem_map] at hinner
  obtain ⟨p, _, rfl⟩ := hinner
  rw [List.mem_map] at hmem
  obtain ⟨r, hr, heq⟩ := hmem
  rw [List.mem_filter] at hr
  have h99 : (!(starts99 r)) = true := hr.2
  cases heq
  simpa [starts99] using h99

/-- C5: a record whose code starts with `99` never enters the master
set, never contributes a key to `duplicates`, never appears in any
per-group ranking listing, and — among the analysis outputs — appears
only in the index set; a record whose code lacks that prefix is never
placed in the index set. -/
theorem c5_index_exclusion (rows : List SRow) (r : SRow) :
    (strStartsWith "99" r.code = true →
      r ∉ stock_df rows ∧
      r.code ∉ dupKeys rows ∧
      (∀ g l, (g, l) ∈ groupListings rows → r ∉ l) ∧
      (r ∈ all_stocks rows → r ∈ index_df rows)) ∧
    (strStartsWith "99" r.code = false → r ∉ index_df rows) := by
  constructor
  · intro h99
    refine ⟨?_, ?_, ?_, ?_⟩
    · intro hmem
      have hm := (mem_of_mem_dedupByCode _ _ _ hmem).1
      rw [stockRows, List.mem_filter] at hm
      have := hm.2
      simp [starts99, h99] at this
    · intro hmem
      rw [dupKeys, List.mem_filter, mem_dedupFirstAux] at hmem
      have h2 := hmem.1.1
      rw [List.mem_map] at h2
      obtain ⟨p, hp, hpe⟩ := h2
      have hfalse := code99_not_in_all_codes rows p.1 p.2 (by simpa using hp)
      rw [hpe, h99] at hfalse
      cases hfalse
    · intro g l hm hr
      rw [groupListings, List.mem_map] at hm
      obtain ⟨p, _, heq⟩ := hm
      cases heq
      rw [mem_sortChgDesc, List.mem_filter] at hr
      have := hr.2
      simp [starts99, h99] at this
    · intro hmem
      rw [index_df, List.mem_filter]
      exact ⟨hmem, by simp [starts99, h99]⟩
  · intro h99 hmem
    rw [index_df, List.mem_filter] at hmem
    have := hmem.2
    simp [starts99, h99] at this

/-- Witness for `c5_index_exclusion`: the index record `990001` of
`exC5` lands in the index set. -/
theorem c5_index_exclusion_witness : exC5idx ∈ index_df exC5 :=
  ((c5_index_exclusion exC5 exC5idx).1 (by decide)).2.2.2 (by decide)

/-! ### C7 : noise-row rejection -/

/-- C7: a marker row whose candidate label contains `重复` or `数据来源`
leaves the grouping state unchanged: `currentGroup` keeps its value, no
group is created, and no member is added anywhere. -/
theorem c7_noise_marker (st : GState) (r : SRow)
    (hmark : isDataCode (pyStrip r.code) = false)
    (hnoise : strContains "重复" (markerLabel r) = true ∨
      strContains "数据来源" (markerLabel r) = true) :
    stepRow st r = st := by
  rcases hnoise with h | h <;> simp [stepRow, hmark, h]

/-- Witness for `c7_noise_marker`: a footer marker row mentioning `重复`
is ignored by the grouping loop. -/
theorem c7_noise_marker_witness :
    stepRow ⟨[], "未分类"⟩ ⟨"标记重复", "", none⟩ = ⟨[], "未分类"⟩ :=
  c7_noise_marker _ _ (by decide) (Or.inl (by decide))

/-! ### C8 : first-line metadata extraction

Character-class disjointness: each quantified regex class is disjoint
from the class of the character that must follow it, which makes the
maximal-munch matcher `extractAt` complete for the pattern. -/

theorem wsC_not_cjk {x : Char} (h : isWsC x = true) : isCJK x = false := by
  simp only [isWsC, Bool.or_eq_true, beq_iff_eq] at h
  rcases h with ((((rfl | rfl) | rfl) | rfl) | rfl) | rfl <;> rfl

theorem openP_not_cjk {o : Char} (h : isOpenP o = true) : isCJK o = false := by
  simp only [isOpenP, Bool.or_eq_true, beq_iff_eq] at h
  rcases h with rfl | rfl <;> rfl

theorem openP_not_ws {o : Char} (h : isOpenP o = true) : isWsC o = false := by
  simp only [isOpenP, Bool.or_eq_true, beq_iff_eq] at h
  rcases h with rfl | rfl <;> rfl

theorem closeP_not_dig {c : Char} (h : isCloseP c = true) : isDig c = false := by
  simp only [isCloseP, Bool.or_eq_true, beq_iff_eq] at h
  rcases h with rfl | rfl <;> rfl

theorem extractAt_isSome_of_parts (nm w d s : List Char) (o c : Char)
    (hnm : nm ≠ []) (hnmall : ∀ x ∈ nm, isCJK x = true)
    (hwall : ∀ x ∈ w, isWsC x = true) (ho : isOpenP o = true)
    (hd : d ≠ []) (hdall : ∀ x ∈ d, isDig x = true) (hc : isCloseP c = true) :
    (extractAt (nm ++ (w ++ o :: (d ++ c :: s)))).isSome = true := by
  have hA : (nm ++ (w ++ o :: (d ++ c :: s))).takeWhile isCJK = nm := by
    rw [List.takeWhile_append_of_pos hnmall]
    have hz : (w ++ o :: (d ++ c :: s)).takeWhile isCJK = [] := by
      cases w with
      | nil =>
        simpa using List.takeWhile_cons_of_neg (l := d ++ c :: s)
          (by simp [openP_not_cjk ho])
      | cons x xs =>
        simp only [List.cons_append]
        exact List.takeWhile_cons_of_neg
          (by simp [wsC_not_cjk (hwall x (List.mem_cons_self _ _))])
    rw [hz, List.append_nil]
  have hB : (nm ++ (w ++ o :: (d ++ c :: s))).dropWhile isCJK =
      w ++ o :: (d ++ c :: s) := by
    rw [List.dropWhile_append_of_pos hnmall]
    cases w with
    | nil => exact List.dropWhile_cons_of_neg (by simp [openP_not_cjk ho])
    | cons x xs =>
      simp only [List.cons_append]
      exact List.dropWhile_cons_of_neg
        (by simp [wsC_not_cjk (hwall x (List.mem_cons_self _ _))])
  have hC : (w ++ o :: (d ++ c :: s)).dropWhile isWsC = o :: (d ++ c :: s) := by
    rw [List.dropWhile_append_of_pos hwall]
    exact List.dropWhile_cons_of_neg (by simp [openP_not_ws ho])
  have hD : (d ++ c :: s).takeWhile isDig = d := by
    rw [List.takeWhile_append_of_pos hdall,
      List.takeWhile_cons_of_neg (by simp [closeP_not_dig hc]), List.append_nil]
  have hE : (d ++ c :: s).dropWhile isDig = c :: s := by
    rw [List.dropWhile_append_of_pos hdall]
    exact List.dropWhile_cons_of_neg (by simp [closeP_not_dig hc])
  have hnmE : nm.isEmpty = false := by
    cases nm with
    | nil => exact absurd rfl hnm
    | cons a b => rfl
  have hdE : d.isEmpty = false := by
    cases d with
    | nil => exact absurd rfl hd
    | cons a b => rfl
  unfold extractAt
  rw [hA, hB, hC]
  simp only [hnmE, Bool.false_eq_true, if_false, ho, if_true, hD, hE, hdE, hc]
  rfl

theorem specMeta_of_extractAt (cs : List Char)
    (h : (extractAt cs).isSome = true) : SpecMeta cs := by
  unfold extractAt at h
  by_cases h1 : (cs.takeWhile isCJK).isEmpty
  · rw [if_pos h1] at h
    simp at h
  · rw [if_neg h1] at h
    cases h2 : (cs.dropWhile isCJK).dropWhile isWsC with
    | nil => rw [h2] at h; simp at h
    | cons o rest =>
      rw [h2] at h
      dsimp only at h
      by_cases ho : isOpenP o = true
      · rw [if_pos ho] at h
        by_cases h4 : (rest.takeWhile isDig).isEmpty
        · rw [if_pos h4] at h; simp at h
        · rw [if_neg h4] at h
          cases h3 : rest.dropWhile isDig with
          | nil => rw [h3] at h; simp at h
          | cons c s =>
            rw [h3] at h
            dsimp only at h
            by_cases hc : isCloseP c = true
            · refine ⟨[], cs.takeWhile isCJK, (cs.dropWhile isCJK).takeWhile isWsC,
                rest.takeWhile isDig, s, o, c, ?_, ?_,
                fun x hx => List.mem_takeWhile_imp hx,
                fun x hx => List.mem_takeWhile_imp hx, ho, ?_,
                fun x hx => List.mem_takeWhile_imp hx, hc⟩
              · simp only [List.nil_append]
                conv_lhs => rw [← List.takeWhile_append_dropWhile isCJK cs]
                rw [List.append_assoc]
                congr 1
                conv_lhs =>
                  rw [← List.takeWhile_append_dropWhile isWsC (cs.dropWhile isCJK)]
                rw [h2]
                congr 1
                conv_lhs => rw [← List.takeWhile_append_dropWhile isDig rest]
                rw [h3]
              · intro he
                rw [he] at h1
                exact h1 rfl
              · intro he
                rw [he] at h4
                exact h4 rfl
            · rw [if_neg hc] at h
              simp at h
      · rw [if_neg ho] at h
        simp at h

theorem metaSearch_isSome_of_extract (cs : List Char) (r : String × String)
    (h : extractAt cs = some r) : (metaSearch cs).isSome = true := by
  cases cs with
  | nil => simp [extractAt] at h
  | cons c t => simp [metaSearch, h]

theorem metaSearch_mono (c : Char) (t : List Char)
    (h : (metaSearch t).isSome = true) : (metaSearch (c :: t)).isSome = true := by
  rw [metaSearch]
  cases he : extractAt (c :: t) <;> simp [he, h]

/-- The search-based matcher finds the pattern iff the specification's
decomposition exists. -/
theorem metaSearch_isSome_iff (cs : List Char) :
    (metaSearch cs).isSome = true ↔ SpecMeta cs := by
  constructor
  · intro h
    induction cs with
    | nil => simp [metaSearch] at h
    | cons c t ih =>
      rw [metaSearch] at h
      cases he : extractAt (c :: t) with
      | some r => exact specMeta_of_extractAt _ (by simp [he])
      | none =>
        rw [he] at h
        obtain ⟨p, nm, w, d, s, o, cc, hcs, h2, h3, h4, h5, h6, h7, h8⟩ := ih h
        exact ⟨c :: p, nm, w, d, s, o, cc, by rw [hcs]; rfl,
          h2, h3, h4, h5, h6, h7, h8⟩
  · rintro ⟨p, nm, w, d, s, o, c, hcs, h2, h3, h4, h5, h6, h7, h8⟩
    subst hcs
    induction p with
    | nil =>
      have h := extractAt_isSome_of_parts nm w d s o c h2 h3 h4 h5 h6 h7 h8
      obtain ⟨r, hr⟩ := Option.isSome_iff_exists.mp h
      have := metaSearch_isSome_of_extract _ r hr
      simpa [List.append_assoc] using this
    | cons x p' ihp =>
      have := metaSearch_mono x _ ihp
      simpa [List.cons_append] using this

/-- C8: on the `.xls`-as-text path, the instrument metadata is populated
exactly when the stripped first line contains the pattern
`"<name><whitespace>(<digits>)"` (name a nonempty CJK run, whitespace
possibly empty, the parentheses ASCII or fullwidth); when the first line
does not match, the metadata is left unset and the tab-text parse still
returns its frame without error. -/
theorem c8_first_line_metadata (l0 : String) :
    ((stock_info_of l0).isSome = true ↔ SpecMeta l0.data) ∧
    (∀ {α : Type} (rest : List String) (tabParse : Nat → Option α)
      (excelParse : Option α) (t : α),
      ¬ SpecMeta (pyStrip l0).data →
      tabParse (find_header_idx (l0 :: rest)) = some t →
      read_xls (some (l0 :: rest)) tabParse excelParse =
        { df := some t, info := none, excelTried := false }) := by
  constructor
  · exact metaSearch_isSome_iff l0.data
  · intro α rest tabParse excelParse t hnospec htab
    have hnone : stock_info_of (pyStrip l0) = none := by
      cases hi : stock_info_of (pyStrip l0) with
      | none => rfl
      | some r =>
        have hs : (metaSearch (pyStrip l0).data).isSome = true := by
          rw [show metaSearch (pyStrip l0).data = stock_info_of (pyStrip l0)
            from rfl, hi]
          rfl
        exact absurd ((metaSearch_isSome_iff _).mp hs) hnospec
    simp [read_xls, htab, hnone]

/-- Witness for `c8_first_line_metadata`: a first line with no CJK name
pattern leaves the metadata unset while the tab parse result is
returned. -/
theorem c8_first_line_metadata_witness :
    read_xls (some ["  abc  "]) (fun _ => some (1 : Nat)) none =
      { df := some 1, info := none, excelTried := false } :=
  (c8_first_line_metadata "  abc  ").2 [] (fun _ => some 1) none 1
    (fun h => absurd ((c8_first_line_metadata (pyStrip "  abc  ")).1.mpr
      (by simpa [pyStrip] using h)) (by decide))
    rfl

/-! ### C10 : watchlist table cleanup -/

theorem modifyCell_get (f : String → String) (i j : Nat) (l : List String) :
    (modifyCell f i l)[j]? = if j = i then (l[j]?).map f else l[j]? := by
  induction l generalizing i j with
  | nil => simp [modifyCell]
  | cons c t ih =>
    cases i with
    | zero =>
      cases j with
      | zero => simp [modifyCell]
      | succ j => simp [modifyCell]
    | succ i =>
      cases j with
      | zero => simp [modifyCell]
      | succ j =>
        simp only [modifyCell, List.getElem?_cons_succ, ih]
        by_cases hij : j = i
        · simp [hij]
        · simp [hij, fun h => hij (Nat.succ_injective h)]

/-- C10: when the table has a `代码` column, `read_stock_list` rewrites
exactly that column by removing the substrings `="` and `"` from each
value, leaves every other cell of every row unchanged, and then drops
precisely the rows whose first cell starts with `#`. -/
theorem c10_stock_list_clean (t : Table) (hc : "代码" ∈ t.headers) :
    (read_stock_list t).headers = t.headers ∧
    (read_stock_list t).rows =
      (t.rows.map (modifyCell cleanCode (firstIdx "代码" t.headers))).filter keepRow ∧
    (∀ r : List String, ∀ j,
      (modifyCell cleanCode (firstIdx "代码" t.headers) r)[j]? =
        if j = firstIdx "代码" t.headers then (r[j]?).map cleanCode else r[j]?) ∧
    (∀ r ∈ t.rows.map (modifyCell cleanCode (firstIdx "代码" t.headers)),
      (r ∈ (read_stock_list t).rows ↔ strStartsWith "#" (r.headD "") = false)) := by
  refine ⟨?_, ?_, fun r j => modifyCell_get _ _ _ _, fun r hr => ?_⟩
  · simp [read_stock_list]
  · simp [read_stock_list, hc]
  · unfold read_stock_list
    rw [if_pos hc]
    simp only [List.mem_filter]
    constructor
    · rintro ⟨_, hk⟩
      simpa [keepRow] using hk
    · intro hk
      exact ⟨hr, by simpa [keepRow] using hk⟩

/-- Witness for `c10_stock_list_clean`: on `exTable` the quoted code is
unwrapped and the `#` comment row is dropped. -/
theorem c10_stock_list_clean_witness :
    (read_stock_list exTable).rows =
      (exTable.rows.map
        (modifyCell cleanCode (firstIdx "代码" exTable.headers))).filter keepRow :=
  (c10_stock_list_clean exTable (by decide)).2.1

end TdxStock
